import Mathlib

/-!
# Verification of the rule-based classification engine (`web/src/classification.js`)

Shallow embedding of the sensitive-content classification engine:
pattern normalization, simple-detector evaluation, the recursive
pattern-tree evaluator, rule-pack (SIT) detector evaluation, and the
aggregation pass.  The JavaScript regular-expression engine
(`new RegExp` / `String.prototype.matchAll`) is an external runtime
primitive, modelled as an abstract `RegexEngine`; everything written in
the repository itself is translated definition by definition.
-/

namespace PurviewClassification

/-- JS `Array.from(new Set(l))`: deduplicate keeping the first occurrence of
each element, preserving insertion order.  `seen` accumulates the elements
already emitted. -/
def dedupFirstAux {α : Type} [DecidableEq α] (seen : List α) : List α → List α
  | [] => []
  | a :: rest =>
    if a ∈ seen then dedupFirstAux seen rest
    else a :: dedupFirstAux (seen ++ [a]) rest

/-- JS `Array.from(new Set(l))` (first-occurrence order-preserving dedup). -/
def dedupFirst {α : Type} [DecidableEq α] (l : List α) : List α :=
  dedupFirstAux [] l

/-- Result of one regex pass over the text: match count plus the first
(at most five) matched substrings, as produced by `runPatternMatches`. -/
structure MatchRun where
  count : Nat
  samples : List String
  deriving DecidableEq

/-- Abstract JS regular-expression engine.  `compiles src flags` is whether
`new RegExp(src, flags)` succeeds; `matchAll src flags text` is the list of
matched substrings `Array.from(text.matchAll(re)).map(m => m[0])` for a
global regex.  (JS throws on `matchAll` with a non-global regex; callers of
this field in the model only reach it when the `g` flag is present or the
call sits inside a `try` that maps the throw to an empty result.) -/
structure RegexEngine where
  compiles : String → List Char → Bool
  matchAll : String → List Char → String → List String

/-- A JS pattern value handed to `parseRegexDefinition`: a `RegExp` object
(with its `source` and `flags`), a plain string, or any other value. -/
inductive PatternDescriptor where
  | regexObj (source : String) (flags : List Char)
  | str (s : String)
  | otherVal
  deriving DecidableEq

/-- JS whitespace test for `String.prototype.trim` (the characters that
occur in this code base's inputs). -/
def isJsSpace (c : Char) : Bool :=
  c = ' ' || c = '\t' || c = '\n' || c = '\r'

/-- JS `s.trim()` on a character list. -/
def trimChars (cs : List Char) : List Char :=
  ((cs.dropWhile isJsSpace).reverse.dropWhile isJsSpace).reverse

/-- Index of the last occurrence of `c`, JS `s.lastIndexOf(c)` (as `none`
when absent). -/
def lastIdxAux (c : Char) (i : Nat) (best : Option Nat) : List Char → Option Nat
  | [] => best
  | x :: rest => lastIdxAux c (i + 1) (if x = c then some i else best) rest

/-- JS `s.lastIndexOf('/')` as an optional index. -/
def lastSlashIdx (cs : List Char) : Option Nat :=
  lastIdxAux '/' 0 none cs

/-- Whether `cs` starts with the character sequence `pre`. -/
def startsWithSeq : List Char → List Char → Bool
  | _, [] => true
  | [], _ :: _ => false
  | c :: cs, d :: ds => c = d && startsWithSeq cs ds

/-- JS `s.includes(sub)`: contiguous-subsequence test. -/
def hasSub : List Char → List Char → Bool
  | [], sub => sub.isEmpty
  | c :: rest, sub => startsWithSeq (c :: rest) sub || hasSub rest sub

/-- The letters accepted by the inline-modifier group `(?imsu)`. -/
def inlineFlagLetters : List Char := ['i', 'm', 's', 'u']

/-- JS `source.match(/^\(\?([imsu]+)\)/)`: when the source starts with an
inline mode-modifier group, return its letters and the source with the
group stripped. -/
def matchInlineFlags (cs : List Char) : Option (List Char × List Char) :=
  if startsWithSeq cs ['(', '?'] then
    let letters := (cs.drop 2).takeWhile (fun c => c ∈ inlineFlagLetters)
    if letters ≠ [] ∧ (cs.drop (2 + letters.length)).head? = some ')' then
      some (letters, cs.drop (3 + letters.length))
    else none
  else none

/-- Delimiter unwrapping (`source.startsWith('/') && source.lastIndexOf('/') > 0`):
split body and trailing flags, appending the trailing flags to the default
flag set; otherwise the source passes through with the default flags. -/
def delimiterStep (defaultFlags : List Char) (cs0 : List Char) : List Char × List Char :=
  match lastSlashIdx cs0 with
  | some k =>
    if cs0.head? = some '/' ∧ 0 < k then
      (((cs0.take k).drop 1), defaultFlags ++ cs0.drop (k + 1))
    else (cs0, defaultFlags)
  | none => (cs0, defaultFlags)

/-- Inline-modifier stripping: remove a leading `(?imsu)` group from the
body and append its letters to the flag set. -/
def inlineStep (p : List Char × List Char) : List Char × List Char :=
  match matchInlineFlags p.1 with
  | some (letters, rest) => (rest, p.2 ++ letters)
  | none => p

/-- The Unicode-property heuristic: add the `u` flag when the body contains
a `\p` escape token. -/
def unicodeStep (p : List Char × List Char) : List Char × List Char :=
  if hasSub p.1 ['\\', 'p', '\x7b'] || hasSub p.1 ['\\', 'P', '\x7b']
      || hasSub p.1 ['\\', 'p'] then
    (p.1, p.2 ++ ['u'])
  else p

/-- `parseRegexDefinition(pattern, defaultFlags)`:  a `RegExp` object keeps
its source and flags verbatim (flags default to `g` when empty); a string
is trimmed (empty → invalid), unwrapped from `/.../flags` delimiters
(appending the trailing flags to the default flag set), stripped of a
leading `(?imsu)` group (appending its letters), and given the `u` flag
when a Unicode-property escape token occurs in the body.  Any other value
is invalid. -/
def parseRegexDefinition (defaultFlags : List Char) (p : PatternDescriptor) :
    Option (String × List Char) :=
  match p with
  | .regexObj source flags => some (source, if flags = [] then ['g'] else flags)
  | .str s =>
    let cs0 := trimChars s.toList
    if cs0 = [] then none
    else
      let q := unicodeStep (inlineStep (delimiterStep defaultFlags cs0))
      some (String.mk q.1, q.2)
  | .otherVal => none

/-- The default flag set `'gi'` used by both callers of the normalizer. -/
def jsDefaultFlags : List Char := ['g', 'i']

/-- `ensureRegex(pattern)`: normalize, force the `g` flag into the
(deduplicated) flag set, and compile; `none` when parsing or compilation
fails. -/
def ensureRegex (E : RegexEngine) (p : PatternDescriptor) : Option (String × List Char) :=
  match parseRegexDefinition jsDefaultFlags p with
  | none => none
  | some (source, flags) =>
    let flagSet := dedupFirst flags
    let flagsG := if 'g' ∈ flagSet then flagSet else flagSet ++ ['g']
    if E.compiles source flagsG then some (source, flagsG) else none

/-- `runPatternMatches(text, pattern, flags)`: compile and collect all
matches, with the surrounding `try` mapping a compile failure — or the
`TypeError` that `matchAll` throws for a non-global regex — to an empty
result. -/
def runPatternMatches (E : RegexEngine) (text : String) (pattern : String)
    (flags : List Char) : MatchRun :=
  if E.compiles pattern flags ∧ 'g' ∈ flags then
    let ms := E.matchAll pattern flags text
    { count := ms.length, samples := ms.take 5 }
  else { count := 0, samples := [] }

/-- A simple (single-regex) detector record as the evaluator receives it.
Absent / non-numeric JS field values are modelled as `none`. -/
structure Detector where
  id : String
  name : String
  description : String
  pattern : PatternDescriptor
  minCount : Option Nat
  confidence : Option Int
  sensitiveTypeId : Option String
  source : Option String
  deriving DecidableEq

/-- JS `Number(v) || d`: absent / non-numeric (NaN) and `0` both fall back
to the default. -/
def jsNumOrNat (v : Option Nat) (d : Nat) : Nat :=
  match v with
  | some n => if n = 0 then d else n
  | none => d

/-- JS `Number(v) || d` for confidence values. -/
def jsNumOrInt (v : Option Int) (d : Int) : Int :=
  match v with
  | some n => if n = 0 then d else n
  | none => d

/-- The engine's output record.  `detectSensitiveInfo` emits objects without
`description` and `source` properties, modelled as `none`. -/
structure ClassificationMatch where
  id : String
  name : String
  description : Option String
  count : Nat
  confidence : Int
  sensitiveTypeId : String
  samples : List String
  source : Option String
  deriving DecidableEq, Inhabited

/-- JS `s.trim()`. -/
def jsTrim (s : String) : String := String.mk (trimChars s.toList)

/-- The body of the `detectors.forEach` loop of `detectSensitiveInfo`: the
record pushed for one detector, or `none` when its pattern is invalid or
the match count is below `minCount`. -/
def simpleOutput (E : RegexEngine) (text : String) (d : Detector) :
    Option ClassificationMatch :=
  match ensureRegex E d.pattern with
  | none => none
  | some (source, flags) =>
    let ms := E.matchAll source flags text
    if ms.length < jsNumOrNat d.minCount 1 then none
    else some {
      id := d.id
      name := d.name
      description := none
      count := ms.length
      confidence := jsNumOrInt d.confidence 50
      sensitiveTypeId := (match d.sensitiveTypeId with | some s => jsTrim s | none => "")
      samples := (ms.take 5)
      source := none }

/-- `detectSensitiveInfo(text, detectors)`. -/
def detectSensitiveInfo (E : RegexEngine) (text : String) (detectors : List Detector) :
    List ClassificationMatch :=
  if text = "" then [] else detectors.filterMap (simpleOutput E text)

/-- A `{pattern, flags}` entry of a Keyword node. -/
structure KeywordEntry where
  pattern : String
  flags : List Char
  deriving DecidableEq

/-- A pattern-tree node: the JS objects dispatch on the `type` string field
(`'regex'` / `'keyword'` / `'any'`); `unknownNode` covers `null` nodes and
unrecognized type tags, which share the same non-matching fallback. -/
inductive PatternNode where
  | regex (pattern : PatternDescriptor) (minMatches : Option Nat)
  | keyword (entries : List KeywordEntry) (minMatches : Option Nat)
  | anyOf (children : List PatternNode) (minMatches : Option Nat) (maxMatches : Option Nat)
  | unknownNode

/-- The transient per-node evaluation result. -/
structure NodeResult where
  matched : Bool
  count : Nat
  samples : List String
  deriving DecidableEq

/-- `mergeSamples(existing, additional, limit)` before the final `slice`:
skip falsy (empty) entries, append unseen entries, and stop as soon as the
merged list reaches the limit. -/
def mergeSamplesAux (merged : List String) (limit : Nat) : List String → List String
  | [] => merged
  | entry :: rest =>
    if entry = "" then mergeSamplesAux merged limit rest
    else
      let merged1 := if entry ∈ merged then merged else merged ++ [entry]
      if limit ≤ merged1.length then merged1
      else mergeSamplesAux merged1 limit rest

/-- `mergeSamples(existing, additional, limit = 5)`. -/
def mergeSamples (existing additional : List String) (limit : Nat) : List String :=
  (mergeSamplesAux existing limit additional).take limit

/-- `evaluateRegexNode(text, node)`. -/
def evaluateRegexNode (E : RegexEngine) (text : String) (p : PatternDescriptor)
    (minMatches : Option Nat) : NodeResult :=
  match parseRegexDefinition jsDefaultFlags p with
  | none => ⟨false, 0, []⟩
  | some (source, flags) =>
    let mr := runPatternMatches E text source flags
    ⟨decide (jsNumOrNat minMatches 1 ≤ mr.count), mr.count, mr.samples⟩

/-- `evaluateKeywordNode(text, node)`: every entry runs its own pass; counts
are summed and samples merged only for entries that matched at least once. -/
def evaluateKeywordNode (E : RegexEngine) (text : String) (entries : List KeywordEntry)
    (minMatches : Option Nat) : NodeResult :=
  let acc := entries.foldl (fun (acc : Nat × List String) e =>
    let mr := runPatternMatches E text e.pattern e.flags
    if 0 < mr.count then (acc.1 + mr.count, mergeSamples acc.2 mr.samples 5) else acc)
    (0, [])
  ⟨decide (jsNumOrNat minMatches 1 ≤ acc.1), acc.1, acc.2⟩

/-- The tail of `evaluateAnyNode` once every child has been evaluated:
sum the children's counts, merge their samples, and compare the total
against `minMatches ?? 1` and (when set) `maxMatches`. -/
def anyNodeResult (rs : List NodeResult) (minMatches maxMatches : Option Nat) : NodeResult :=
  let acc := rs.foldl (fun (acc : Nat × List String) r =>
    (acc.1 + r.count, mergeSamples acc.2 r.samples 5)) (0, [])
  let minM := minMatches.getD 1
  let withinMax := match maxMatches with | none => true | some m => decide (acc.1 ≤ m)
  ⟨decide (minM ≤ acc.1) && withinMax, acc.1, acc.2⟩

mutual

/-- `evaluateNode(text, node)`: dispatch on the node variant; `null` and
unknown type tags give the non-matching fallback. -/
def evaluateNode (E : RegexEngine) (text : String) : PatternNode → NodeResult
  | .regex p mm => evaluateRegexNode E text p mm
  | .keyword entries mm => evaluateKeywordNode E text entries mm
  | .anyOf children mm mx => anyNodeResult (evalNodeList E text children) mm mx
  | .unknownNode => ⟨false, 0, []⟩

/-- The `node.children.forEach` recursion of `evaluateAnyNode`: evaluate
every child unconditionally, in order. -/
def evalNodeList (E : RegexEngine) (text : String) : List PatternNode → List NodeResult
  | [] => []
  | n :: ns => evaluateNode E text n :: evalNodeList E text ns

end

/-- `evaluateAnyNode(text, node)`: every child is evaluated (no
short-circuit), counts summed, samples merged, and the bounds applied. -/
def evaluateAnyNode (E : RegexEngine) (text : String) (children : List PatternNode)
    (minMatches maxMatches : Option Nat) : NodeResult :=
  anyNodeResult (evalNodeList E text children) minMatches maxMatches

/-- A concrete test engine standing in for the JS regex engine on
single-character literal patterns: a pattern compiles when non-empty, and
`matchAll` returns one match per occurrence of the pattern character. -/
def charEngine : RegexEngine where
  compiles := fun source _ => decide (source ≠ "")
  matchAll := fun source _ text =>
    (text.toList.filter (fun c => String.mk [c] = source)).map (fun c => String.mk [c])

example :
    evaluateNode charEngine "aab" (.regex (.str "a") none) = ⟨true, 2, ["a", "a"]⟩ := by
  decide

example :
    evaluateNode charEngine "aab"
      (.anyOf [.regex (.str "a") none, .regex (.str "b") (some 2)] none none) =
      ⟨true, 3, ["a", "b"]⟩ := by
  decide

/-- A rule-pack pattern: the in-memory object holding the node list, its
own id, and its own `confidence` field (read by `evaluatePattern` and by
the importer `buildDetectorsFromSits`). -/
structure PatternTree where
  id : Option String
  nodes : List PatternNode
  confidence : Option Int

/-- The result object of `evaluatePattern`.  On the unmatched early return
the JS object is `{ matched: false }`: its `count`, `samples` and
`confidence` properties are absent (`undefined`), modelled as `none`. -/
structure PatternResult where
  matched : Bool
  count : Option Nat
  samples : Option (List String)
  confidence : Option Int
  deriving DecidableEq

/-- The `for (const node of pattern.nodes)` loop of `evaluatePattern`,
threading the accumulated count and samples; `none` is the early
`return { matched: false }`. -/
def evaluatePatternAux (E : RegexEngine) (text : String) :
    List PatternNode → Nat → List String → Option (Nat × List String)
  | [], total, samples => some (total, samples)
  | n :: rest, total, samples =>
    let r := evaluateNode E text n
    if r.matched then
      evaluatePatternAux E text rest (total + r.count) (mergeSamples samples r.samples 5)
    else none

/-- `evaluatePattern(text, pattern)`: strict conjunction over the ordered
node list, reporting the summed count, merged samples and
`pattern.confidence ?? 50` when every node matched. -/
def evaluatePattern (E : RegexEngine) (text : String) (pattern : PatternTree) :
    PatternResult :=
  match evaluatePatternAux E text pattern.nodes 0 [] with
  | none => ⟨false, none, none, none⟩
  | some (total, samples) => ⟨true, some total, some samples, some (pattern.confidence.getD 50)⟩

/-- A rule-pack (SIT) detector record. -/
structure RulePackDetector where
  id : String
  sitId : String
  name : String
  description : String
  pattern : PatternTree
  confidence : Option Int
  source : Option String

/-- The body of the `detectors.map` of `evaluateSitDetectors`: `null`
(here `none`) when the pattern is unmatched or its combined count is 0,
otherwise the emitted `ClassificationMatch`. -/
def sitOutput (E : RegexEngine) (text : String) (d : RulePackDetector) :
    Option ClassificationMatch :=
  let patternResult := evaluatePattern E text d.pattern
  if patternResult.matched = false ∨ patternResult.count = some 0 then none
  else some {
    id := d.id
    name := d.name
    description := some d.description
    count := patternResult.count.getD 0
    confidence := max (d.confidence.getD 50) (patternResult.confidence.getD 50)
    sensitiveTypeId := d.sitId
    samples := patternResult.samples.getD []
    source := some "rulepack" }

/-- `evaluateSitDetectors(text, detectors)`. -/
def evaluateSitDetectors (E : RegexEngine) (text : String)
    (detectors : List RulePackDetector) : List ClassificationMatch :=
  if text = "" ∨ detectors.isEmpty then []
  else detectors.filterMap (sitOutput E text)

/-- One SIT entry of the imported catalog (`web/src/App` state): a stable
id, display name/description, and the pattern trees extracted from the
rule pack. -/
structure SitDefinition where
  id : String
  name : String
  description : String
  patterns : List PatternTree

/-- The inner `sit.patterns.forEach` of `buildDetectorsFromSits`: one
detector per pattern with a non-empty node list. -/
def detectorsOfSit (sit : SitDefinition) : List RulePackDetector :=
  sit.patterns.filterMap (fun pattern =>
    if pattern.nodes.isEmpty then none
    else some {
      id := sit.id ++ "-" ++ (pattern.id.getD sit.id)
      sitId := sit.id
      name := sit.name
      description := sit.description
      pattern := pattern
      confidence := some (pattern.confidence.getD 50)
      source := some "rulepack" })

/-- `buildDetectorsFromSits(sits)` (from the web app component): one
detector per (SIT, pattern) pair with a non-empty node list, with
`confidence: pattern.confidence ?? 50` and `source: 'rulepack'`. -/
def buildDetectorsFromSits (sits : List SitDefinition) : List RulePackDetector :=
  sits.foldl (fun acc sit => acc ++ detectorsOfSit sit) []

/-- `key = result.sensitiveTypeId || result.id` (JS falsy: empty string
falls through to the id). -/
def jsKeyOf (r : ClassificationMatch) : String :=
  if r.sensitiveTypeId = "" then r.id else r.sensitiveTypeId

/-- The in-place merge of `aggregateClassificationResults` for an existing
map entry: add the counts, keep the maximum confidence, and replace the
samples by the order-preserving dedup of the concatenation, capped at 5. -/
def aggMerge (existing r : ClassificationMatch) : ClassificationMatch :=
  { existing with
    count := existing.count + r.count
    confidence := max existing.confidence r.confidence
    samples := (dedupFirst (existing.samples ++ r.samples)).take 5 }

/-- `map.get(key)` over the insertion-ordered association list modelling
the JS `Map`. -/
def findEntry (key : String) : List (String × ClassificationMatch) →
    Option ClassificationMatch
  | [] => none
  | p :: rest => if p.1 = key then some p.2 else findEntry key rest

/-- Updating the (unique) entry of `key` in place, keeping its position. -/
def updateEntry (key : String) (r : ClassificationMatch) :
    List (String × ClassificationMatch) → List (String × ClassificationMatch)
  | [] => []
  | p :: rest =>
    if p.1 = key then (p.1, aggMerge p.2 r) :: rest else p :: updateEntry key r rest

/-- The body of the `classificationResults.forEach` loop: drop keyless
records, seed a new map entry with a copy of the first record for the key,
and merge subsequent records into the existing entry. -/
def aggInsert (m : List (String × ClassificationMatch)) (r : ClassificationMatch) :
    List (String × ClassificationMatch) :=
  let key := jsKeyOf r
  if key = "" then m
  else if findEntry key m = none then m ++ [(key, r)]
  else updateEntry key r m

/-- `aggregateClassificationResults(classificationResults)`: fold the
records into the insertion-ordered map and return its values. -/
def aggregateClassificationResults (rs : List ClassificationMatch) :
    List ClassificationMatch :=
  (rs.foldl aggInsert []).map (fun p => p.2)

/-- `buildGraphClassificationResults`: the Policy Projector triple. -/
structure GraphClassificationResult where
  sensitiveTypeId : String
  count : Nat
  confidenceLevel : Int
  deriving DecidableEq

/-- `buildGraphClassificationResults(classificationResults)`. -/
def buildGraphClassificationResults (rs : List ClassificationMatch) :
    List GraphClassificationResult :=
  ((aggregateClassificationResults rs).filter (fun r => r.sensitiveTypeId ≠ "")).map
    (fun r => ⟨r.sensitiveTypeId, r.count, r.confidence⟩)

example :
    aggregateClassificationResults
      [⟨"a", "A", none, 1, 60, "SSN", ["x"], none⟩,
       ⟨"b", "B", none, 2, 80, "SSN", ["x", "y"], none⟩] =
      [⟨"a", "A", none, 3, 80, "SSN", ["x", "y"], none⟩] := by
  decide

/-! ## Properties of the order-preserving dedup -/

section Dedup

variable {α : Type} [DecidableEq α]

theorem mem_dedupFirstAux (l : List α) :
    ∀ (seen : List α) (a : α), a ∈ dedupFirstAux seen l ↔ a ∈ l ∧ a ∉ seen := by
  induction l with
  | nil => intro seen a; simp [dedupFirstAux]
  | cons b rest ih =>
    intro seen a
    by_cases hb : b ∈ seen
    · simp only [dedupFirstAux, if_pos hb, ih, List.mem_cons]
      constructor
      · rintro ⟨h1, h2⟩; exact ⟨Or.inr h1, h2⟩
      · rintro ⟨h1 | h1, h2⟩
        · exact absurd (h1 ▸ hb) h2
        · exact ⟨h1, h2⟩
    · rw [dedupFirstAux, if_neg hb]
      simp only [List.mem_cons, ih]
      constructor
      · rintro (rfl | ⟨h1, h2⟩)
        · exact ⟨Or.inl rfl, hb⟩
        · refine ⟨Or.inr h1, fun hc => h2 ?_⟩
          simp [hc]
      · rintro ⟨rfl | h1, h2⟩
        · exact Or.inl rfl
        · by_cases hab : a = b
          · exact Or.inl hab
          · refine Or.inr ⟨h1, fun hc => ?_⟩
            rcases List.mem_append.1 hc with h | h
            · exact h2 h
            · exact hab (List.mem_singleton.1 h)

theorem mem_dedupFirst (l : List α) (a : α) : a ∈ dedupFirst l ↔ a ∈ l := by
  simp [dedupFirst, mem_dedupFirstAux]

theorem nodup_dedupFirstAux (l : List α) : ∀ seen : List α, (dedupFirstAux seen l).Nodup := by
  induction l with
  | nil => intro seen; simp [dedupFirstAux]
  | cons b rest ih =>
    intro seen
    by_cases hb : b ∈ seen
    · simpa [dedupFirstAux, if_pos hb] using ih seen
    · simp only [dedupFirstAux, if_neg hb, List.nodup_cons]
      refine ⟨fun hc => ?_, ih _⟩
      exact ((mem_dedupFirstAux rest _ b).1 hc).2 (by simp)

theorem nodup_dedupFirst (l : List α) : (dedupFirst l).Nodup :=
  nodup_dedupFirstAux l []

theorem dedupFirstAux_congr (l : List α) :
    ∀ s₁ s₂ : List α, (∀ x, x ∈ s₁ ↔ x ∈ s₂) → dedupFirstAux s₁ l = dedupFirstAux s₂ l := by
  induction l with
  | nil => intro s₁ s₂ _; rfl
  | cons b rest ih =>
    intro s₁ s₂ h
    by_cases hb : b ∈ s₁
    · rw [dedupFirstAux, if_pos hb, dedupFirstAux, if_pos ((h b).1 hb)]
      exact ih s₁ s₂ h
    · rw [dedupFirstAux, if_neg hb, dedupFirstAux, if_neg (fun hc => hb ((h b).2 hc))]
      exact congrArg (b :: ·) (ih _ _ (fun x => by simp [h x]))

theorem dedupFirstAux_append (xs : List α) :
    ∀ (seen : List α) (ys : List α),
      dedupFirstAux seen (xs ++ ys) = dedupFirstAux seen xs ++ dedupFirstAux (seen ++ xs) ys := by
  induction xs with
  | nil => intro seen ys; simp [dedupFirstAux]
  | cons b rest ih =>
    intro seen ys
    by_cases hb : b ∈ seen
    · simp only [List.cons_append, dedupFirstAux, if_pos hb, List.append_eq]
      rw [ih]
      exact congrArg _ (dedupFirstAux_congr ys _ _ (fun x => by
        simp only [List.mem_append, List.mem_cons]
        constructor
        · rintro (h | h)
          · exact Or.inl h
          · exact Or.inr (Or.inr h)
        · rintro (h | rfl | h)
          · exact Or.inl h
          · exact Or.inl hb
          · exact Or.inr h))
    · simp only [List.cons_append, dedupFirstAux, if_neg hb, List.append_eq]
      rw [ih]
      simp only [List.cons_append, List.append_assoc, List.singleton_append,
        List.nil_append]

theorem dedupFirstAux_eq_self (l : List α) :
    ∀ seen : List α, l.Nodup → (∀ a ∈ l, a ∉ seen) → dedupFirstAux seen l = l := by
  induction l with
  | nil => intro seen _ _; rfl
  | cons b rest ih =>
    intro seen hnd hni
    rw [dedupFirstAux, if_neg (hni b (by simp))]
    refine congrArg (b :: ·) (ih _ (List.nodup_cons.1 hnd).2 ?_)
    intro a ha
    simp only [List.mem_append, List.mem_singleton]
    rintro (hc | rfl)
    · exact hni a (by simp [ha]) hc
    · exact (List.nodup_cons.1 hnd).1 ha

theorem dedupFirst_eq_self (l : List α) (h : l.Nodup) : dedupFirst l = l :=
  dedupFirstAux_eq_self l [] h (by simp)

theorem dedupFirst_append (xs ys : List α) :
    dedupFirst (xs ++ ys) = dedupFirst xs ++ dedupFirstAux xs ys := by
  rw [dedupFirst, dedupFirstAux_append, List.nil_append]
  rfl

/-- Merging through a deduplicated-and-capped intermediate state gives the
same capped result as deduplicating the flat concatenation: the lemma that
makes the iterated sample merge of the aggregator equal to the spec's
"dedup of the union, capped" description. -/
theorem dedupFirst_take_append (n : Nat) (xs ys : List α) :
    (dedupFirst ((dedupFirst xs).take n ++ ys)).take n = (dedupFirst (xs ++ ys)).take n := by
  by_cases h : (dedupFirst xs).length ≤ n
  · rw [List.take_of_length_le h, dedupFirst_append, dedupFirst_append,
      dedupFirst_eq_self _ (nodup_dedupFirst xs)]
    exact congrArg _ (congrArg _ (dedupFirstAux_congr ys _ _ (fun x => mem_dedupFirst xs x)))
  · push_neg at h
    have hP : ((dedupFirst xs).take n).length = n := by
      simp [List.length_take, Nat.min_eq_left (Nat.le_of_lt h)]
    have hPnd : ((dedupFirst xs).take n).Nodup :=
      (List.take_sublist n _).nodup (nodup_dedupFirst xs)
    rw [dedupFirst_append, dedupFirst_eq_self _ hPnd,
      List.take_append_of_le_length (Nat.le_of_eq hP.symm),
      List.take_of_length_le (Nat.le_of_eq hP),
      dedupFirst_append, List.take_append_of_le_length (Nat.le_of_lt h)]

end Dedup

/-! ## Properties of `mergeSamples` -/

theorem nodup_mergeSamplesAux (limit : Nat) (additional : List String) :
    ∀ merged : List String, merged.Nodup → (mergeSamplesAux merged limit additional).Nodup := by
  induction additional with
  | nil => intro merged h; exact h
  | cons e rest ih =>
    intro merged h
    by_cases he : e = ""
    · rw [mergeSamplesAux, if_pos he]; exact ih merged h
    · rw [mergeSamplesAux, if_neg he]
      by_cases hmem : e ∈ merged
      · simp only [if_pos hmem]
        split
        · exact h
        · exact ih merged h
      · simp only [if_neg hmem]
        have h1 : (merged ++ [e]).Nodup := by
          simp [List.nodup_append, h, hmem]
        split
        · exact h1
        · exact ih _ h1

theorem nodup_mergeSamples (existing additional : List String) (limit : Nat)
    (h : existing.Nodup) : (mergeSamples existing additional limit).Nodup :=
  (List.take_sublist _ _).nodup (nodup_mergeSamplesAux limit additional existing h)

theorem length_mergeSamples_le (existing additional : List String) (limit : Nat) :
    (mergeSamples existing additional limit).length ≤ limit :=
  List.length_take_le limit _

/-! ## Characterization of the aggregation fold -/

/-- The distinct non-empty grouping keys of the run, in first-seen order —
the spec's "output order = first-seen key order". -/
def specKeys (rs : List ClassificationMatch) : List String :=
  dedupFirst ((rs.map jsKeyOf).filter (fun k => k ≠ ""))

/-- All records of the run grouped under key `k`, in input order. -/
def contributorsFor (rs : List ClassificationMatch) (k : String) :
    List ClassificationMatch :=
  rs.filter (fun r => jsKeyOf r = k)

/-- The value the JS fold builds for one key: the first contributor seeded
verbatim (`{ ...result }`), every later contributor folded in with the
in-place merge. -/
def jsCombine : List ClassificationMatch → ClassificationMatch
  | [] => default
  | first :: rest => rest.foldl aggMerge first

/-- The key-value pairs of the insertion-ordered map after the whole fold. -/
def aggPairs (rs : List ClassificationMatch) : List (String × ClassificationMatch) :=
  (specKeys rs).map (fun k => (k, jsCombine (contributorsFor rs k)))

theorem mem_specKeys (rs : List ClassificationMatch) (k : String) :
    k ∈ specKeys rs ↔ k ≠ "" ∧ ∃ r ∈ rs, jsKeyOf r = k := by
  simp only [specKeys, mem_dedupFirst, List.mem_filter, List.mem_map,
    decide_eq_true_eq]
  tauto

theorem specKeys_nodup (rs : List ClassificationMatch) : (specKeys rs).Nodup :=
  nodup_dedupFirst _

theorem contributorsFor_eq_nil (rs : List ClassificationMatch) (k : String)
    (h : k ∉ specKeys rs) (hk : k ≠ "") : contributorsFor rs k = [] := by
  rw [contributorsFor, List.filter_eq_nil_iff]
  intro r hr
  simp only [decide_eq_true_eq]
  exact fun heq => h ((mem_specKeys rs k).2 ⟨hk, r, hr, heq⟩)

theorem contributorsFor_ne_nil (rs : List ClassificationMatch) (k : String)
    (h : k ∈ specKeys rs) : contributorsFor rs k ≠ [] := by
  obtain ⟨-, r, hr, heq⟩ := (mem_specKeys rs k).1 h
  intro hc
  have hmem : r ∈ contributorsFor rs k := List.mem_filter.2 ⟨hr, by simp [heq]⟩
  rw [hc] at hmem
  exact absurd hmem (List.not_mem_nil r)

theorem mem_contributorsFor (rs : List ClassificationMatch) (k : String)
    (r : ClassificationMatch) (h : r ∈ contributorsFor rs k) : r ∈ rs :=
  (List.mem_filter.1 h).1

theorem specKeys_append_single (p : List ClassificationMatch) (r : ClassificationMatch) :
    specKeys (p ++ [r]) =
      if jsKeyOf r = "" then specKeys p
      else if jsKeyOf r ∈ specKeys p then specKeys p else specKeys p ++ [jsKeyOf r] := by
  by_cases h0 : jsKeyOf r = ""
  · rw [if_pos h0]
    unfold specKeys
    rw [List.map_append, List.filter_append]
    simp [h0]
  · rw [if_neg h0]
    have hsing : (([r].map jsKeyOf).filter (fun k => k ≠ "")) = [jsKeyOf r] := by
      simp [h0]
    have hred : dedupFirstAux ((p.map jsKeyOf).filter (fun k => k ≠ "")) [jsKeyOf r]
        = if jsKeyOf r ∈ ((p.map jsKeyOf).filter (fun k => k ≠ "")) then []
          else [jsKeyOf r] := rfl
    by_cases hmem : jsKeyOf r ∈ specKeys p
    · have hmemf : jsKeyOf r ∈ (p.map jsKeyOf).filter (fun k => k ≠ "") :=
        (mem_dedupFirst _ _).1 hmem
      rw [if_pos hmem]
      show dedupFirst _ = specKeys p
      rw [List.map_append, List.filter_append, hsing, dedupFirst_append, hred,
        if_pos hmemf, List.append_nil]
      rfl
    · have hmemf : jsKeyOf r ∉ (p.map jsKeyOf).filter (fun k => k ≠ "") :=
        fun hc => hmem ((mem_dedupFirst _ _).2 hc)
      rw [if_neg hmem]
      show dedupFirst _ = specKeys p ++ [jsKeyOf r]
      rw [List.map_append, List.filter_append, hsing, dedupFirst_append, hred,
        if_neg hmemf]
      rfl

theorem contributorsFor_append_single (p : List ClassificationMatch)
    (r : ClassificationMatch) (k : String) :
    contributorsFor (p ++ [r]) k =
      contributorsFor p k ++ (if jsKeyOf r = k then [r] else []) := by
  unfold contributorsFor
  rw [List.filter_append]
  congr 1
  by_cases h : jsKeyOf r = k <;> simp [h]

theorem findEntry_map (g : String → ClassificationMatch) (k : String) :
    ∀ ks : List String,
      findEntry k (ks.map (fun x => (x, g x))) = if k ∈ ks then some (g k) else none := by
  intro ks
  induction ks with
  | nil => simp [findEntry]
  | cons a ks ih =>
    simp only [List.map_cons, findEntry]
    by_cases h : a = k
    · subst h; simp
    · rw [if_neg h, ih]
      by_cases hk : k ∈ ks
      · rw [if_pos hk, if_pos (List.mem_cons.2 (Or.inr hk))]
      · rw [if_neg hk, if_neg (fun hc => ?_)]
        rcases List.mem_cons.1 hc with rfl | hc2
        · exact h rfl
        · exact hk hc2

theorem updateEntry_map (g : String → ClassificationMatch) (r : ClassificationMatch)
    (key : String) :
    ∀ ks : List String, ks.Nodup →
      updateEntry key r (ks.map (fun x => (x, g x))) =
        ks.map (fun x => (x, if x = key then aggMerge (g x) r else g x)) := by
  intro ks
  induction ks with
  | nil => intro _; rfl
  | cons a ks ih =>
    intro hnd
    simp only [List.map_cons, updateEntry]
    by_cases h : a = key
    · rw [if_pos h]
      refine congrArg₂ (· :: ·) (by rw [if_pos h]) ?_
      refine (List.map_congr_left ?_).symm
      intro x hx
      have hxa : x ≠ key := fun hxk => (List.nodup_cons.1 hnd).1 ((hxk.trans h.symm) ▸ hx)
      rw [if_neg hxa]
    · rw [if_neg h, ih (List.nodup_cons.1 hnd).2]
      rw [if_neg h]

theorem jsCombine_append_single (l : List ClassificationMatch) (r : ClassificationMatch)
    (h : l ≠ []) : jsCombine (l ++ [r]) = aggMerge (jsCombine l) r := by
  cases l with
  | nil => exact absurd rfl h
  | cons first rest => simp [jsCombine, List.foldl_append]

theorem aggInsert_aggPairs (p : List ClassificationMatch) (r : ClassificationMatch) :
    aggInsert (aggPairs p) r = aggPairs (p ++ [r]) := by
  have hfind := findEntry_map (fun k => jsCombine (contributorsFor p k)) (jsKeyOf r)
    (specKeys p)
  by_cases h0 : jsKeyOf r = ""
  · rw [aggInsert, if_pos h0]
    unfold aggPairs
    rw [specKeys_append_single, if_pos h0]
    refine List.map_congr_left ?_
    intro k hk
    rw [contributorsFor_append_single]
    have hne : jsKeyOf r ≠ k := fun hc => ((mem_specKeys p k).1 hk).1 (hc ▸ h0)
    rw [if_neg hne, List.append_nil]
  · by_cases hmem : jsKeyOf r ∈ specKeys p
    · rw [if_pos hmem] at hfind
      rw [aggInsert, if_neg h0]
      unfold aggPairs
      rw [hfind, if_neg (by simp : ¬(some (jsCombine (contributorsFor p (jsKeyOf r))) = none))]
      rw [updateEntry_map _ _ _ _ (specKeys_nodup p)]
      rw [specKeys_append_single, if_neg h0, if_pos hmem]
      refine List.map_congr_left ?_
      intro k hk
      rw [contributorsFor_append_single]
      by_cases hkr : jsKeyOf r = k
      · rw [if_pos hkr, if_pos hkr.symm,
          jsCombine_append_single _ _ (contributorsFor_ne_nil p k (hkr ▸ hmem))]
      · rw [if_neg hkr, if_neg (fun hc : k = jsKeyOf r => hkr hc.symm), List.append_nil]
    · rw [if_neg hmem] at hfind
      rw [aggInsert, if_neg h0]
      unfold aggPairs
      rw [hfind, if_pos rfl]
      rw [specKeys_append_single, if_neg h0, if_neg hmem, List.map_append]
      refine congrArg₂ (· ++ ·) ?_ ?_
      · refine List.map_congr_left ?_
        intro k hk
        rw [contributorsFor_append_single]
        have hne : jsKeyOf r ≠ k := fun hc => hmem (hc ▸ hk)
        rw [if_neg hne, List.append_nil]
      · simp only [List.map_cons, List.map_nil]
        rw [contributorsFor_append_single, contributorsFor_eq_nil p _ hmem h0, if_pos rfl,
          List.nil_append]
        rfl

theorem foldl_aggInsert_eq (rs : List ClassificationMatch) :
    ∀ p, List.foldl aggInsert (aggPairs p) rs = aggPairs (p ++ rs) := by
  induction rs with
  | nil => intro p; simp
  | cons r rs ih =>
    intro p
    rw [List.foldl_cons, aggInsert_aggPairs, ih (p ++ [r])]
    simp

/-- The whole aggregation fold, characterized: one map value per distinct
non-empty key in first-seen order, each the JS merge-fold of that key's
contributors. -/
theorem aggregate_eq_aggPairs (rs : List ClassificationMatch) :
    aggregateClassificationResults rs =
      ((specKeys rs).map (fun k => jsCombine (contributorsFor rs k))) := by
  have h0 : aggPairs ([] : List ClassificationMatch) = [] := rfl
  rw [aggregateClassificationResults, ← h0, foldl_aggInsert_eq, List.nil_append,
    aggPairs, List.map_map]
  rfl

/-- The `AggregatedMatch` for one key as the spec words it: the first
contributor's record with `count` the sum of all contributors' counts,
`confidence` their maximum, and `samples` the deduplicated union in
first-seen order, capped at 5. -/
def specCombine (first : ClassificationMatch) (rest : List ClassificationMatch) :
    ClassificationMatch :=
  { first with
    count := first.count + (rest.map (fun r => r.count)).sum
    confidence := rest.foldl (fun a r => max a r.confidence) first.confidence
    samples := (dedupFirst (first.samples ++ (rest.map (fun r => r.samples)).flatten)).take 5 }

/-- The spec's description of the whole aggregation: exactly one combined
record per distinct key, in first-seen key order. -/
def specAggregate (rs : List ClassificationMatch) : List ClassificationMatch :=
  (specKeys rs).map (fun k =>
    match contributorsFor rs k with
    | [] => default
    | first :: rest => specCombine first rest)

theorem jsCombine_eq_specCombine (rest : List ClassificationMatch) :
    ∀ first : ClassificationMatch, first.samples.Nodup → first.samples.length ≤ 5 →
      jsCombine (first :: rest) = specCombine first rest := by
  induction rest with
  | nil =>
    intro first h1 h2
    show first = specCombine first []
    simp [specCombine, dedupFirst_eq_self _ h1, List.take_of_length_le h2]
  | cons r rest ih =>
    intro first h1 h2
    show (r :: rest).foldl aggMerge first = specCombine first (r :: rest)
    rw [List.foldl_cons]
    have hm1 : (aggMerge first r).samples.Nodup :=
      (List.take_sublist _ _).nodup (nodup_dedupFirst _)
    have hm2 : (aggMerge first r).samples.length ≤ 5 := List.length_take_le _ _
    have hstep : List.foldl aggMerge (aggMerge first r) rest
        = jsCombine (aggMerge first r :: rest) := rfl
    rw [hstep, ih (aggMerge first r) hm1 hm2]
    simp only [specCombine, aggMerge, List.map_cons, List.flatten_cons, List.sum_cons,
      List.foldl_cons, ClassificationMatch.mk.injEq, true_and]
    refine ⟨by omega, ?_⟩
    rw [dedupFirst_take_append, List.append_assoc]
    exact ⟨rfl, trivial⟩

theorem samples_jsCombine (rest : List ClassificationMatch)
    (first : ClassificationMatch) (h1 : first.samples.Nodup)
    (h2 : first.samples.length ≤ 5) :
    (jsCombine (first :: rest)).samples.Nodup ∧
      (jsCombine (first :: rest)).samples.length ≤ 5 := by
  rw [jsCombine_eq_specCombine rest first h1 h2]
  exact ⟨(List.take_sublist _ _).nodup (nodup_dedupFirst _), List.length_take_le _ _⟩

/-- The record fields the merge step never touches. -/
def frameFields (m : ClassificationMatch) :
    String × String × Option String × String × Option String :=
  (m.id, m.name, m.description, m.sensitiveTypeId, m.source)

theorem frame_aggMerge (e r : ClassificationMatch) :
    frameFields (aggMerge e r) = frameFields e := rfl

theorem frame_jsCombine (rest : List ClassificationMatch) :
    ∀ first, frameFields (jsCombine (first :: rest)) = frameFields first := by
  induction rest with
  | nil => intro first; rfl
  | cons r rest ih =>
    intro first
    show frameFields ((r :: rest).foldl aggMerge first) = _
    rw [List.foldl_cons]
    exact (ih (aggMerge first r)).trans (frame_aggMerge first r)

/-- Aggregation refines the spec's description, provided every input
record's samples are duplicate-free and capped at 5 (the invariant the
data model states for `ClassificationMatch`). -/
theorem aggregate_eq_specAggregate (rs : List ClassificationMatch)
    (h : ∀ r ∈ rs, r.samples.Nodup ∧ r.samples.length ≤ 5) :
    aggregateClassificationResults rs = specAggregate rs := by
  rw [aggregate_eq_aggPairs, specAggregate]
  refine List.map_congr_left ?_
  intro k hk
  obtain ⟨first, rest, heq⟩ : ∃ f r, contributorsFor rs k = f :: r := by
    cases hcf : contributorsFor rs k with
    | nil => exact absurd hcf (contributorsFor_ne_nil rs k hk)
    | cons f r => exact ⟨f, r, rfl⟩
  rw [heq]
  have hf : first ∈ rs := mem_contributorsFor rs k first (heq ▸ List.mem_cons_self _ _)
  exact jsCombine_eq_specCombine rest first (h first hf).1 (h first hf).2

/-! ## Node and pattern evaluator lemmas -/

theorem evalNodeList_eq_map (E : RegexEngine) (text : String) :
    ∀ ns : List PatternNode, evalNodeList E text ns = ns.map (evaluateNode E text) := by
  intro ns
  induction ns with
  | nil => rfl
  | cons n ns ih => rw [evalNodeList, ih, List.map_cons]

theorem foldResults_count (rs : List NodeResult) :
    ∀ acc : Nat × List String,
      (rs.foldl (fun acc r => (acc.1 + r.count, mergeSamples acc.2 r.samples 5)) acc).1 =
        acc.1 + (rs.map (fun r => r.count)).sum := by
  induction rs with
  | nil => intro acc; simp
  | cons r rs ih =>
    intro acc
    rw [List.foldl_cons, ih, List.map_cons, List.sum_cons]
    omega

theorem foldResults_samples (rs : List NodeResult) :
    ∀ acc : Nat × List String,
      (rs.foldl (fun acc r => (acc.1 + r.count, mergeSamples acc.2 r.samples 5)) acc).2 =
        rs.foldl (fun s r => mergeSamples s r.samples 5) acc.2 := by
  induction rs with
  | nil => intro acc; rfl
  | cons r rs ih => intro acc; rw [List.foldl_cons, ih, List.foldl_cons]

theorem foldSamples_nodup (rs : List NodeResult) :
    ∀ s : List String, s.Nodup →
      (rs.foldl (fun s r => mergeSamples s r.samples 5) s).Nodup := by
  induction rs with
  | nil => intro s h; exact h
  | cons r rs ih =>
    intro s h
    rw [List.foldl_cons]
    exact ih _ (nodup_mergeSamples _ _ _ h)

theorem foldSamples_length (rs : List NodeResult) :
    ∀ s : List String, s.length ≤ 5 →
      (rs.foldl (fun s r => mergeSamples s r.samples 5) s).length ≤ 5 := by
  induction rs with
  | nil => intro s h; exact h
  | cons r rs ih =>
    intro s _
    rw [List.foldl_cons]
    exact ih _ (length_mergeSamples_le _ _ _)

theorem anyNodeResult_count (rs : List NodeResult) (mm mx : Option Nat) :
    (anyNodeResult rs mm mx).count = (rs.map (fun r => r.count)).sum := by
  show (rs.foldl (fun acc r => (acc.1 + r.count, mergeSamples acc.2 r.samples 5)) (0, [])).1
      = (rs.map (fun r => r.count)).sum
  simpa using foldResults_count rs (0, [])

theorem anyNodeResult_samples (rs : List NodeResult) (mm mx : Option Nat) :
    (anyNodeResult rs mm mx).samples = rs.foldl (fun s r => mergeSamples s r.samples 5) [] := by
  show (rs.foldl (fun acc r => (acc.1 + r.count, mergeSamples acc.2 r.samples 5)) (0, [])).2
      = rs.foldl (fun s r => mergeSamples s r.samples 5) []
  simpa using foldResults_samples rs (0, [])

theorem anyNodeResult_matched (rs : List NodeResult) (mm mx : Option Nat) :
    (anyNodeResult rs mm mx).matched = true ↔
      (mm.getD 1 ≤ (anyNodeResult rs mm mx).count ∧
        ∀ m, mx = some m → (anyNodeResult rs mm mx).count ≤ m) := by
  rcases mx with _ | m
  · simp [anyNodeResult]
  · simp [anyNodeResult]

theorem evaluatePatternAux_all (E : RegexEngine) (text : String) (ns : List PatternNode) :
    ∀ (total : Nat) (samples : List String),
      (∀ n ∈ ns, (evaluateNode E text n).matched = true) →
      evaluatePatternAux E text ns total samples =
        some (total + (ns.map (fun n => (evaluateNode E text n).count)).sum,
          ns.foldl (fun s n => mergeSamples s (evaluateNode E text n).samples 5) samples) := by
  induction ns with
  | nil => intro total samples _; simp [evaluatePatternAux]
  | cons n rest ih =>
    intro total samples h
    rw [evaluatePatternAux]
    simp only [if_pos (h n (List.mem_cons_self n rest))]
    rw [ih _ _ (fun m hm => h m (List.mem_cons.2 (Or.inr hm)))]
    rw [List.map_cons, List.sum_cons, List.foldl_cons]
    exact congrArg _ (by rw [Prod.mk.injEq]; exact ⟨by omega, rfl⟩)

theorem evaluatePatternAux_unmatched (E : RegexEngine) (text : String)
    (ns : List PatternNode) :
    ∀ (total : Nat) (samples : List String),
      (∃ n ∈ ns, (evaluateNode E text n).matched = false) →
      evaluatePatternAux E text ns total samples = none := by
  induction ns with
  | nil =>
    intro _ _ h
    obtain ⟨n, hn, -⟩ := h
    exact absurd hn (List.not_mem_nil n)
  | cons n rest ih =>
    intro total samples h
    by_cases hn : (evaluateNode E text n).matched
    · rw [evaluatePatternAux]
      simp only [if_pos hn]
      apply ih
      obtain ⟨m, hm, hfalse⟩ := h
      rcases List.mem_cons.1 hm with rfl | hmr
      · rw [hn] at hfalse; cases hfalse
      · exact ⟨m, hmr, hfalse⟩
    · rw [evaluatePatternAux]
      simp only [if_neg hn]

theorem evaluatePatternAux_samples_inv (E : RegexEngine) (text : String)
    (ns : List PatternNode) :
    ∀ (total : Nat) (samples : List String) (out : Nat × List String),
      samples.Nodup → samples.length ≤ 5 →
      evaluatePatternAux E text ns total samples = some out →
      out.2.Nodup ∧ out.2.length ≤ 5 := by
  induction ns with
  | nil =>
    intro total samples out h1 h2 heq
    rw [evaluatePatternAux] at heq
    cases heq
    exact ⟨h1, h2⟩
  | cons n rest ih =>
    intro total samples out h1 h2 heq
    rw [evaluatePatternAux] at heq
    by_cases hn : (evaluateNode E text n).matched
    · rw [if_pos hn] at heq
      exact ih _ _ _ (nodup_mergeSamples _ _ _ h1) (length_mergeSamples_le _ _ _) heq
    · rw [if_neg hn] at heq
      cases heq

theorem evaluatePattern_matched (E : RegexEngine) (text : String) (pattern : PatternTree)
    (h : ∀ n ∈ pattern.nodes, (evaluateNode E text n).matched = true) :
    evaluatePattern E text pattern =
      ⟨true, some ((pattern.nodes.map (fun n => (evaluateNode E text n).count)).sum),
        some (pattern.nodes.foldl
          (fun s n => mergeSamples s (evaluateNode E text n).samples 5) []),
        some (pattern.confidence.getD 50)⟩ := by
  rw [evaluatePattern, evaluatePatternAux_all E text _ 0 [] h]
  simp

theorem evaluatePattern_unmatched (E : RegexEngine) (text : String) (pattern : PatternTree)
    (h : ∃ n ∈ pattern.nodes, (evaluateNode E text n).matched = false) :
    evaluatePattern E text pattern = ⟨false, none, none, none⟩ := by
  rw [evaluatePattern, evaluatePatternAux_unmatched E text _ 0 [] h]

theorem evaluatePattern_cases (E : RegexEngine) (text : String) (pattern : PatternTree) :
    evaluatePattern E text pattern = ⟨false, none, none, none⟩ ∨
      ∃ total samples, evaluatePattern E text pattern =
          ⟨true, some total, some samples, some (pattern.confidence.getD 50)⟩ ∧
        samples.Nodup ∧ samples.length ≤ 5 := by
  rw [evaluatePattern]
  cases heq : evaluatePatternAux E text pattern.nodes 0 [] with
  | none => exact Or.inl rfl
  | some out =>
    obtain ⟨total, samples⟩ := out
    have hs := evaluatePatternAux_samples_inv E text pattern.nodes 0 [] (total, samples)
      (by simp) (by simp) heq
    exact Or.inr ⟨total, samples, rfl, hs.1, hs.2⟩

theorem sitOutput_none (E : RegexEngine) (text : String) (d : RulePackDetector)
    (h : (evaluatePattern E text d.pattern).matched = false ∨
      (evaluatePattern E text d.pattern).count = some 0) :
    sitOutput E text d = none := by
  simp only [sitOutput]
  rw [if_pos h]

theorem sitOutput_some (E : RegexEngine) (text : String) (d : RulePackDetector)
    (m : ClassificationMatch) (h : sitOutput E text d = some m) :
    (evaluatePattern E text d.pattern).matched = true ∧
      m.confidence = max (d.confidence.getD 50)
        ((evaluatePattern E text d.pattern).confidence.getD 50) ∧
      m.sensitiveTypeId = d.sitId ∧ m.source = some "rulepack" ∧
      m.count = (evaluatePattern E text d.pattern).count.getD 0 ∧
      m.samples = (evaluatePattern E text d.pattern).samples.getD [] ∧
      m.id = d.id ∧ m.name = d.name ∧ m.description = some d.description := by
  simp only [sitOutput] at h
  by_cases hc : (evaluatePattern E text d.pattern).matched = false ∨
      (evaluatePattern E text d.pattern).count = some 0
  · rw [if_pos hc] at h; cases h
  · rw [if_neg hc] at h
    cases h
    refine ⟨?_, rfl, rfl, rfl, rfl, rfl, rfl, rfl, rfl⟩
    cases hb : (evaluatePattern E text d.pattern).matched
    · exact absurd (Or.inl hb) hc
    · rfl

theorem mem_evaluateSitDetectors (E : RegexEngine) (text : String)
    (ds : List RulePackDetector) (m : ClassificationMatch)
    (h : m ∈ evaluateSitDetectors E text ds) : ∃ d ∈ ds, sitOutput E text d = some m := by
  rw [evaluateSitDetectors] at h
  split at h
  · exact absurd h (List.not_mem_nil m)
  · exact List.mem_filterMap.1 h

theorem simpleOutput_invalid (E : RegexEngine) (text : String) (d : Detector)
    (h : ensureRegex E d.pattern = none) : simpleOutput E text d = none := by
  simp only [simpleOutput, h]

theorem simpleOutput_spec (E : RegexEngine) (text : String) (d : Detector)
    (source : String) (flags : List Char) (h : ensureRegex E d.pattern = some (source, flags)) :
    ((E.matchAll source flags text).length < jsNumOrNat d.minCount 1 →
      simpleOutput E text d = none) ∧
    (jsNumOrNat d.minCount 1 ≤ (E.matchAll source flags text).length →
      simpleOutput E text d = some {
        id := d.id
        name := d.name
        description := none
        count := (E.matchAll source flags text).length
        confidence := jsNumOrInt d.confidence 50
        sensitiveTypeId := (match d.sensitiveTypeId with | some s => jsTrim s | none => "")
        samples := (E.matchAll source flags text).take 5
        source := none }) := by
  constructor
  · intro hc
    simp only [simpleOutput, h]
    rw [if_pos hc]
  · intro hc
    simp only [simpleOutput, h]
    rw [if_neg (by omega)]

theorem mem_detectSensitiveInfo (E : RegexEngine) (text : String) (ds : List Detector)
    (m : ClassificationMatch) (h : m ∈ detectSensitiveInfo E text ds) :
    ∃ d ∈ ds, simpleOutput E text d = some m := by
  rw [detectSensitiveInfo] at h
  split at h
  · exact absurd h (List.not_mem_nil m)
  · exact List.mem_filterMap.1 h

theorem simpleOutput_some (E : RegexEngine) (text : String) (d : Detector)
    (m : ClassificationMatch) (h : simpleOutput E text d = some m) :
    ∃ source flags, ensureRegex E d.pattern = some (source, flags) ∧
      m.confidence = jsNumOrInt d.confidence 50 ∧
      m.count = (E.matchAll source flags text).length ∧
      m.samples = (E.matchAll source flags text).take 5 ∧
      m.source = none ∧ m.description = none := by
  cases he : ensureRegex E d.pattern with
  | none => rw [simpleOutput_invalid E text d he] at h; cases h
  | some sf =>
    obtain ⟨source, flags⟩ := sf
    simp only [simpleOutput, he] at h
    by_cases hc : (E.matchAll source flags text).length < jsNumOrNat d.minCount 1
    · rw [if_pos hc] at h; cases h
    · rw [if_neg hc] at h
      cases h
      exact ⟨source, flags, rfl, rfl, rfl, rfl, rfl, rfl⟩

theorem ensureRegex_hasG (E : RegexEngine) (p : PatternDescriptor)
    (out : String × List Char) (h : ensureRegex E p = some out) : 'g' ∈ out.2 := by
  rw [ensureRegex] at h
  cases hp : parseRegexDefinition jsDefaultFlags p with
  | none => rw [hp] at h; cases h
  | some sf =>
    obtain ⟨source, flags⟩ := sf
    rw [hp] at h
    simp only at h
    by_cases hg : 'g' ∈ dedupFirst flags
    · rw [if_pos hg] at h
      split at h
      · cases h; exact hg
      · cases h
    · rw [if_neg hg] at h
      split at h
      · cases h
        simp only [List.mem_append, List.mem_singleton]
        exact Or.inr trivial
      · cases h

theorem mem_foldl_append {β : Type} (f : β → List RulePackDetector) (l : List β) :
    ∀ (acc : List RulePackDetector) (x : RulePackDetector),
      x ∈ l.foldl (fun acc b => acc ++ f b) acc ↔ x ∈ acc ∨ ∃ b ∈ l, x ∈ f b := by
  induction l with
  | nil => intro acc x; simp
  | cons b l ih =>
    intro acc x
    rw [List.foldl_cons, ih]
    simp only [List.mem_append, List.mem_cons]
    constructor
    · rintro ((h | h) | ⟨c, hc, hx⟩)
      · exact Or.inl h
      · exact Or.inr ⟨b, Or.inl rfl, h⟩
      · exact Or.inr ⟨c, Or.inr hc, hx⟩
    · rintro (h | ⟨c, rfl | hc, hx⟩)
      · exact Or.inl (Or.inl h)
      · exact Or.inl (Or.inr hx)
      · exact Or.inr ⟨c, hc, hx⟩

theorem delimiterStep_flags (df cs0 : List Char) :
    ∃ t, (delimiterStep df cs0).2 = df ++ t := by
  rw [delimiterStep]
  cases lastSlashIdx cs0 with
  | none => exact ⟨[], (List.append_nil df).symm⟩
  | some k =>
    simp only
    split
    · exact ⟨cs0.drop (k + 1), rfl⟩
    · exact ⟨[], (List.append_nil df).symm⟩

theorem inlineStep_flags (p : List Char × List Char) :
    ∃ t, (inlineStep p).2 = p.2 ++ t := by
  rw [inlineStep]
  cases matchInlineFlags p.1 with
  | none => exact ⟨[], (List.append_nil p.2).symm⟩
  | some lr => exact ⟨lr.1, rfl⟩

theorem unicodeStep_flags (p : List Char × List Char) :
    ∃ t, (unicodeStep p).2 = p.2 ++ t := by
  rw [unicodeStep]
  split
  · exact ⟨['u'], rfl⟩
  · exact ⟨[], (List.append_nil p.2).symm⟩

/-- Every successfully normalized *string* pattern descriptor keeps the
`g` of the default `'gi'` flag set: the three normalization steps only
ever append to the flag list. -/
theorem parse_str_hasG (s : String) (out : String × List Char)
    (h : parseRegexDefinition jsDefaultFlags (.str s) = some out) : 'g' ∈ out.2 := by
  simp only [parseRegexDefinition] at h
  by_cases h0 : trimChars s.toList = []
  · rw [if_pos h0] at h; cases h
  · rw [if_neg h0] at h
    cases h
    obtain ⟨t1, ht1⟩ := delimiterStep_flags jsDefaultFlags (trimChars s.toList)
    obtain ⟨t2, ht2⟩ := inlineStep_flags (delimiterStep jsDefaultFlags (trimChars s.toList))
    obtain ⟨t3, ht3⟩ :=
      unicodeStep_flags (inlineStep (delimiterStep jsDefaultFlags (trimChars s.toList)))
    show 'g' ∈ (unicodeStep (inlineStep (delimiterStep jsDefaultFlags
      (trimChars s.toList)))).2
    rw [ht3, ht2, ht1]
    simp [jsDefaultFlags]

theorem buildDetectors_fields (sits : List SitDefinition) (d : RulePackDetector)
    (h : d ∈ buildDetectorsFromSits sits) :
    d.confidence = some (d.pattern.confidence.getD 50) ∧ d.source = some "rulepack" := by
  rw [buildDetectorsFromSits, mem_foldl_append] at h
  rcases h with h | ⟨sit, -, hx⟩
  · exact absurd h (List.not_mem_nil d)
  · obtain ⟨pattern, -, hsome⟩ := List.mem_filterMap.1 hx
    split at hsome
    · cases hsome
    · cases hsome
      exact ⟨rfl, rfl⟩

/-- The data model's range constraint on a declared confidence field:
absent is allowed, a present value must lie in `[0, 99]`. -/
def confOk : Option Int → Bool
  | none => true
  | some n => decide (0 ≤ n ∧ n ≤ 99)

theorem jsNumOrInt_bound (c : Option Int) (h : confOk c = true) :
    0 ≤ jsNumOrInt c 50 ∧ jsNumOrInt c 50 ≤ 99 := by
  cases c with
  | none => simp [jsNumOrInt]
  | some n =>
    have hb : 0 ≤ n ∧ n ≤ 99 := of_decide_eq_true h
    rw [jsNumOrInt]
    split
    · exact ⟨by norm_num, by norm_num⟩
    · exact hb

theorem getD50_bound (c : Option Int) (h : confOk c = true) :
    0 ≤ c.getD 50 ∧ c.getD 50 ≤ 99 := by
  cases c with
  | none => simp
  | some n => simpa using of_decide_eq_true h

/-! ## The claims -/

/-- C1 (amended): for every list of `ClassificationMatch` records whose
samples lists are duplicate-free with length at most 5 (the data-model
invariant), aggregation groups records by `sensitiveTypeId` when non-empty
else `id`, drops records whose key is empty, and produces exactly one
`AggregatedMatch` per distinct key — `count` the sum of the contributors'
counts, `confidence` their maximum, `samples` the deduplicated union in
first-seen order capped at 5 — in first-seen key order.  (Without the
samples hypothesis the claim fails: a key with a single contributor keeps
that record's samples verbatim.) -/
theorem claim_c1_aggregation (rs : List ClassificationMatch)
    (h : ∀ r ∈ rs, r.samples.Nodup ∧ r.samples.length ≤ 5) :
    aggregateClassificationResults rs = specAggregate rs :=
  aggregate_eq_specAggregate rs h

theorem claim_c1_aggregation_witness :
    (∀ r ∈ ([⟨"a", "A", none, 1, 60, "SSN", ["x"], none⟩,
        ⟨"b", "B", none, 2, 80, "SSN", ["x", "y"], none⟩] : List ClassificationMatch),
      r.samples.Nodup ∧ r.samples.length ≤ 5) ∧
    aggregateClassificationResults
        [⟨"a", "A", none, 1, 60, "SSN", ["x"], none⟩,
         ⟨"b", "B", none, 2, 80, "SSN", ["x", "y"], none⟩] =
      specAggregate
        [⟨"a", "A", none, 1, 60, "SSN", ["x"], none⟩,
         ⟨"b", "B", none, 2, 80, "SSN", ["x", "y"], none⟩] :=
  ⟨by decide, claim_c1_aggregation _ (by decide)⟩

/-- C1 counterexample: a single record whose samples repeat (as the simple
detector evaluator can produce) is seeded verbatim, so the aggregated
samples are not the deduplicated union the claim states. -/
theorem claim_c1_aggregation_cex :
    aggregateClassificationResults
        [⟨"dup", "D", none, 1, 50, "", ["a", "a"], none⟩] ≠
      specAggregate [⟨"dup", "D", none, 1, 50, "", ["a", "a"], none⟩] := by
  decide

/-- C10: merging a later match into an existing record only changes
`count`, `confidence` and `samples`: the `id`, `name`, `description`,
`sensitiveTypeId` and `source` fields of every aggregated record are those
of the first-seen match for its key. -/
theorem claim_c10_frame :
    (∀ e r : ClassificationMatch, frameFields (aggMerge e r) = frameFields e) ∧
    (∀ rs : List ClassificationMatch,
      (aggregateClassificationResults rs).map frameFields =
        (specKeys rs).map (fun k => frameFields ((contributorsFor rs k).headI))) := by
  refine ⟨fun e r => rfl, fun rs => ?_⟩
  rw [aggregate_eq_aggPairs, List.map_map]
  refine List.map_congr_left ?_
  intro k hk
  obtain ⟨first, rest, heq⟩ : ∃ f r, contributorsFor rs k = f :: r := by
    cases hcf : contributorsFor rs k with
    | nil => exact absurd hcf (contributorsFor_ne_nil rs k hk)
    | cons f r => exact ⟨f, r, rfl⟩
  show frameFields (jsCombine (contributorsFor rs k)) =
    frameFields (contributorsFor rs k).headI
  rw [heq]
  exact (frame_jsCombine rest first).trans rfl

/-- C2 (amended): the pattern node list is a strict conjunction: whenever
some node is unmatched the whole pattern is reported as the bare
`{ matched: false }` object — its `count` and `samples` fields are absent
(`undefined`), not `0` — independently of the nodes after the first
unmatched one; when every node matches, the result is `matched: true` with
the nodes' summed counts, the merged (deduplicated, ≤ 5) samples, and the
pattern's confidence. -/
theorem claim_c2_pattern_conjunction :
    (∀ (E : RegexEngine) (text : String) (pattern : PatternTree),
      (∃ n ∈ pattern.nodes, (evaluateNode E text n).matched = false) →
      evaluatePattern E text pattern = ⟨false, none, none, none⟩) ∧
    (∀ (E : RegexEngine) (text : String) (i : Option String) (c : Option Int)
        (ns1 ns2 ns2' : List PatternNode) (bad : PatternNode),
      (evaluateNode E text bad).matched = false →
      evaluatePattern E text ⟨i, ns1 ++ bad :: ns2, c⟩ =
        evaluatePattern E text ⟨i, ns1 ++ bad :: ns2', c⟩) ∧
    (∀ (E : RegexEngine) (text : String) (pattern : PatternTree),
      (∀ n ∈ pattern.nodes, (evaluateNode E text n).matched = true) →
      evaluatePattern E text pattern =
          ⟨true, some ((pattern.nodes.map (fun n => (evaluateNode E text n).count)).sum),
            some (pattern.nodes.foldl
              (fun s n => mergeSamples s (evaluateNode E text n).samples 5) []),
            some (pattern.confidence.getD 50)⟩ ∧
        ((evaluatePattern E text pattern).samples.getD []).Nodup ∧
        ((evaluatePattern E text pattern).samples.getD []).length ≤ 5) := by
  refine ⟨evaluatePattern_unmatched, ?_, ?_⟩
  · intro E text i c ns1 ns2 ns2' bad hbad
    have h1 := evaluatePattern_unmatched E text ⟨i, ns1 ++ bad :: ns2, c⟩
      ⟨bad, by simp, hbad⟩
    have h2 := evaluatePattern_unmatched E text ⟨i, ns1 ++ bad :: ns2', c⟩
      ⟨bad, by simp, hbad⟩
    rw [h1, h2]
  · intro E text pattern h
    have hm := evaluatePattern_matched E text pattern h
    refine ⟨hm, ?_, ?_⟩ <;> rw [hm] <;> simp only [Option.getD_some]
    · rw [← List.foldl_map (evaluateNode E text)
        (fun s r => mergeSamples s r.samples 5) pattern.nodes []]
      exact foldSamples_nodup _ [] (by simp)
    · rw [← List.foldl_map (evaluateNode E text)
        (fun s r => mergeSamples s r.samples 5) pattern.nodes []]
      exact foldSamples_length _ [] (by simp)

theorem claim_c2_pattern_conjunction_witness :
    evaluatePattern charEngine "ab"
        ⟨none, [PatternNode.regex (.str "a") none, PatternNode.regex (.str "q") none],
          some 70⟩ = ⟨false, none, none, none⟩ ∧
    evaluatePattern charEngine "ab"
        ⟨none, [PatternNode.regex (.str "a") none, PatternNode.regex (.str "b") none],
          some 70⟩ = ⟨true, some 2, some ["a", "b"], some 70⟩ := by
  constructor
  · exact claim_c2_pattern_conjunction.1 charEngine "ab" _
      ⟨PatternNode.regex (.str "q") none, by simp, by decide⟩
  · have h := (claim_c2_pattern_conjunction.2.2 charEngine "ab"
      ⟨none, [PatternNode.regex (.str "a") none, PatternNode.regex (.str "b") none],
        some 70⟩ ?_).1
    · exact h.trans (by decide)
    · intro n hn
      rcases List.mem_cons.1 hn with rfl | hn2
      · decide
      · rcases List.mem_cons.1 hn2 with rfl | hn3
        · decide
        · exact absurd hn3 (List.not_mem_nil n)

/-- C2 counterexample: on an unmatched pattern the result object is
`{ matched: false }` — its `count` field is absent (`undefined`), not `0`
as the claim states. -/
theorem claim_c2_pattern_conjunction_cex :
    (evaluatePattern charEngine "x"
      ⟨none, [PatternNode.regex (.str "q") none], some 70⟩).count ≠ some 0 ∧
    (evaluatePattern charEngine "x"
      ⟨none, [PatternNode.regex (.str "q") none], some 70⟩).matched = false := by
  decide

/-- C3: an `Any` node evaluates every child (no short-circuit), sums all
children's counts (matched or not), merges their samples (deduplicated,
first-seen, capped at 5), and is matched exactly when the summed count is
at least `minMatches ?? 1` and, when `maxMatches` is set, at most
`maxMatches`. -/
theorem claim_c3_any_node (E : RegexEngine) (text : String)
    (children : List PatternNode) (minMatches maxMatches : Option Nat) :
    (evaluateAnyNode E text children minMatches maxMatches).count =
      (children.map (fun child => (evaluateNode E text child).count)).sum ∧
    (evaluateAnyNode E text children minMatches maxMatches).samples =
      children.foldl (fun s child => mergeSamples s (evaluateNode E text child).samples 5) [] ∧
    (evaluateAnyNode E text children minMatches maxMatches).samples.Nodup ∧
    (evaluateAnyNode E text children minMatches maxMatches).samples.length ≤ 5 ∧
    ((evaluateAnyNode E text children minMatches maxMatches).matched = true ↔
      (minMatches.getD 1 ≤ (children.map (fun child => (evaluateNode E text child).count)).sum ∧
        ∀ m, maxMatches = some m →
          (children.map (fun child => (evaluateNode E text child).count)).sum ≤ m)) ∧
    evaluateNode E text (.anyOf children minMatches maxMatches) =
      evaluateAnyNode E text children minMatches maxMatches := by
  have hcount : (evaluateAnyNode E text children minMatches maxMatches).count =
      (children.map (fun child => (evaluateNode E text child).count)).sum := by
    rw [evaluateAnyNode, anyNodeResult_count, evalNodeList_eq_map, List.map_map]
    rfl
  have hsamples : (evaluateAnyNode E text children minMatches maxMatches).samples =
      children.foldl (fun s child => mergeSamples s (evaluateNode E text child).samples 5)
        [] := by
    rw [evaluateAnyNode, anyNodeResult_samples, evalNodeList_eq_map, List.foldl_map]
  refine ⟨hcount, hsamples, ?_, ?_, ?_, rfl⟩
  · rw [evaluateAnyNode, anyNodeResult_samples]
    exact foldSamples_nodup _ [] (by simp)
  · rw [evaluateAnyNode, anyNodeResult_samples]
    exact foldSamples_length _ [] (by simp)
  · rw [evaluateAnyNode, anyNodeResult_matched, anyNodeResult_count, evalNodeList_eq_map,
      List.map_map]
    rfl

theorem claim_c3_any_node_witness :
    (evaluateAnyNode charEngine "ab"
      [PatternNode.regex (.str "a") none, PatternNode.regex (.str "b") none]
      (some 2) (some 3)).matched = true ∧
    (evaluateAnyNode charEngine "a" [PatternNode.regex (.str "a") none]
      (some 2) (some 3)).matched = false ∧
    (evaluateAnyNode charEngine "aaa" [PatternNode.regex (.str "a") none]
      (some 2) (some 3)).matched = true ∧
    (evaluateAnyNode charEngine "aaaa" [PatternNode.regex (.str "a") none]
      (some 2) (some 3)).matched = false := by
  refine ⟨?_, by decide, ?_, by decide⟩
  · exact (claim_c3_any_node charEngine "ab"
      [PatternNode.regex (.str "a") none, PatternNode.regex (.str "b") none]
      (some 2) (some 3)).2.2.2.2.1.mpr (by decide)
  · exact (claim_c3_any_node charEngine "aaa" [PatternNode.regex (.str "a") none]
      (some 2) (some 3)).2.2.2.2.1.mpr (by decide)

/-- C4 (amended): no clamping is performed — the confidence defaults to 50
when the declared value is absent (or, on the simple-detector path, zero /
non-numeric), and every emitted confidence lies in `[0, 99]` provided every
declared detector and pattern confidence lies in `[0, 99]`; a declared
value outside that range is passed through unchanged. -/
theorem claim_c4_confidence_bounds :
    (∀ (E : RegexEngine) (text : String) (ds : List Detector),
      (∀ d ∈ ds, confOk d.confidence = true) →
      ∀ m ∈ detectSensitiveInfo E text ds, 0 ≤ m.confidence ∧ m.confidence ≤ 99) ∧
    (∀ (E : RegexEngine) (text : String) (ds : List RulePackDetector),
      (∀ d ∈ ds, confOk d.confidence = true ∧ confOk d.pattern.confidence = true) →
      ∀ m ∈ evaluateSitDetectors E text ds, 0 ≤ m.confidence ∧ m.confidence ≤ 99) := by
  constructor
  · intro E text ds h m hm
    obtain ⟨d, hd, hout⟩ := mem_detectSensitiveInfo E text ds m hm
    obtain ⟨source, flags, -, hconf, -, -, -, -⟩ := simpleOutput_some E text d m hout
    rw [hconf]
    exact jsNumOrInt_bound d.confidence (h d hd)
  · intro E text ds h m hm
    obtain ⟨d, hd, hout⟩ := mem_evaluateSitDetectors E text ds m hm
    obtain ⟨hmatched, hconf, -, -, -, -, -, -, -⟩ := sitOutput_some E text d m hout
    rcases evaluatePattern_cases E text d.pattern with hfalse | ⟨total, samples, htrue, -, -⟩
    · rw [hfalse] at hmatched; cases hmatched
    · rw [hconf, htrue]
      simp only [Option.getD_some]
      have h1 := getD50_bound d.confidence (h d hd).1
      have h2 := getD50_bound d.pattern.confidence (h d hd).2
      exact ⟨le_trans h1.1 (le_max_left _ _), max_le h1.2 h2.2⟩

theorem claim_c4_confidence_bounds_witness :
    (∀ d ∈ ([⟨"d", "D", "", .str "a", none, some 60, none, none⟩] : List Detector),
      confOk d.confidence = true) ∧
    ∀ m ∈ detectSensitiveInfo charEngine "a"
        [⟨"d", "D", "", .str "a", none, some 60, none, none⟩],
      0 ≤ m.confidence ∧ m.confidence ≤ 99 :=
  ⟨by decide, claim_c4_confidence_bounds.1 charEngine "a" _ (by decide)⟩

/-- C4 counterexample: a declared confidence of 150 is emitted unchanged —
nothing clamps it into `[0, 99]`. -/
theorem claim_c4_confidence_bounds_cex :
    ((detectSensitiveInfo charEngine "a"
        [⟨"d", "D", "", .str "a", none, some 150, none, none⟩]).map
      (fun m => m.confidence)) = [150] ∧ ¬((150 : Int) ≤ 99) := by
  decide

/-- C5 (amended): every output record's samples list has length at most 5;
rule-pack evaluator outputs are additionally duplicate-free, and aggregated
outputs are duplicate-free whenever the aggregation inputs are — but the
simple-detector evaluator keeps the raw matched substrings, which may
repeat. -/
theorem claim_c5_samples_invariant :
    (∀ (E : RegexEngine) (text : String) (ds : List Detector),
      ∀ m ∈ detectSensitiveInfo E text ds, m.samples.length ≤ 5) ∧
    (∀ (E : RegexEngine) (text : String) (ds : List RulePackDetector),
      ∀ m ∈ evaluateSitDetectors E text ds, m.samples.Nodup ∧ m.samples.length ≤ 5) ∧
    (∀ rs : List ClassificationMatch,
      (∀ r ∈ rs, r.samples.Nodup ∧ r.samples.length ≤ 5) →
      ∀ m ∈ aggregateClassificationResults rs,
        m.samples.Nodup ∧ m.samples.length ≤ 5) := by
  refine ⟨?_, ?_, ?_⟩
  · intro E text ds m hm
    obtain ⟨d, hd, hout⟩ := mem_detectSensitiveInfo E text ds m hm
    obtain ⟨source, flags, -, -, -, hsamples, -, -⟩ := simpleOutput_some E text d m hout
    rw [hsamples]
    exact List.length_take_le 5 _
  · intro E text ds m hm
    obtain ⟨d, hd, hout⟩ := mem_evaluateSitDetectors E text ds m hm
    obtain ⟨hmatched, -, -, -, -, hsamples, -, -, -⟩ := sitOutput_some E text d m hout
    rcases evaluatePattern_cases E text d.pattern with
      hfalse | ⟨total, samples, htrue, hnd, hlen⟩
    · rw [hfalse] at hmatched; cases hmatched
    · rw [hsamples, htrue]
      simpa using ⟨hnd, hlen⟩
  · intro rs h m hm
    rw [aggregate_eq_specAggregate rs h, specAggregate] at hm
    obtain ⟨k, hk, heq⟩ := List.mem_map.1 hm
    obtain ⟨first, rest, hcf⟩ : ∃ f r, contributorsFor rs k = f :: r := by
      cases hcf2 : contributorsFor rs k with
      | nil => exact absurd hcf2 (contributorsFor_ne_nil rs k hk)
      | cons f r => exact ⟨f, r, rfl⟩
    rw [hcf] at heq
    rw [← heq]
    exact ⟨(List.take_sublist _ _).nodup (nodup_dedupFirst _), List.length_take_le _ _⟩

theorem claim_c5_samples_invariant_witness :
    (∀ r ∈ ([⟨"a", "A", none, 1, 60, "SSN", ["x"], none⟩] : List ClassificationMatch),
      r.samples.Nodup ∧ r.samples.length ≤ 5) ∧
    ∀ m ∈ aggregateClassificationResults [⟨"a", "A", none, 1, 60, "SSN", ["x"], none⟩],
      m.samples.Nodup ∧ m.samples.length ≤ 5 :=
  ⟨by decide, claim_c5_samples_invariant.2.2 _ (by decide)⟩

/-- C5 counterexample: the simple-detector evaluator emits the first five
matched substrings without deduplication, so two equal matches yield a
samples list with a duplicate. -/
theorem claim_c5_samples_invariant_cex :
    ((detectSensitiveInfo charEngine "aa"
        [⟨"d", "D", "", .str "a", none, none, none, none⟩]).map (fun m => m.samples)) =
      [["a", "a"]] ∧ ¬(["a", "a"] : List String).Nodup := by
  decide

/-- C6 (amended): the pattern evaluator reports the tree's *own*
`confidence` field (defaulting to 50) — which equals the detector's
declared confidence exactly for detectors built by the rule-pack importer,
since `buildDetectorsFromSits` sets `confidence: pattern.confidence ?? 50`;
each emitted match carries `max(detector confidence ?? 50, pattern-reported
confidence)`, `sensitiveTypeId = sitId` and `source = "rulepack"`, and a
detector whose pattern is unmatched or has combined count 0 produces no
output. -/
theorem claim_c6_rulepack_confidence :
    (∀ (E : RegexEngine) (text : String) (tree : PatternTree),
      (evaluatePattern E text tree).matched = true →
      (evaluatePattern E text tree).confidence = some (tree.confidence.getD 50)) ∧
    (∀ sits : List SitDefinition, ∀ d ∈ buildDetectorsFromSits sits,
      d.confidence = some (d.pattern.confidence.getD 50)) ∧
    (∀ (E : RegexEngine) (text : String) (ds : List RulePackDetector),
      ∀ m ∈ evaluateSitDetectors E text ds,
        ∃ d ∈ ds,
          m.confidence = max (d.confidence.getD 50) (d.pattern.confidence.getD 50) ∧
          m.sensitiveTypeId = d.sitId ∧ m.source = some "rulepack") ∧
    (∀ (E : RegexEngine) (text : String) (d : RulePackDetector),
      (evaluatePattern E text d.pattern).matched = false ∨
        (evaluatePattern E text d.pattern).count = some 0 →
      sitOutput E text d = none) := by
  refine ⟨?_, ?_, ?_, sitOutput_none⟩
  · intro E text tree hm
    rcases evaluatePattern_cases E text tree with hfalse | ⟨total, samples, htrue, -, -⟩
    · rw [hfalse] at hm; cases hm
    · rw [htrue]
  · intro sits d hd
    exact (buildDetectors_fields sits d hd).1
  · intro E text ds m hm
    obtain ⟨d, hd, hout⟩ := mem_evaluateSitDetectors E text ds m hm
    obtain ⟨hmatched, hconf, hsid, hsource, -, -, -, -, -⟩ := sitOutput_some E text d m hout
    refine ⟨d, hd, ?_, hsid, hsource⟩
    rcases evaluatePattern_cases E text d.pattern with hfalse | ⟨total, samples, htrue, -, -⟩
    · rw [hfalse] at hmatched; cases hmatched
    · rw [hconf, htrue]
      simp

theorem claim_c6_rulepack_confidence_witness :
    (evaluatePattern charEngine "a"
      ⟨none, [PatternNode.regex (.str "a") none], some 80⟩).matched = true ∧
    (evaluatePattern charEngine "a"
      ⟨none, [PatternNode.regex (.str "a") none], some 80⟩).confidence = some 80 := by
  refine ⟨by decide, ?_⟩
  exact (claim_c6_rulepack_confidence.1 charEngine "a"
    ⟨none, [PatternNode.regex (.str "a") none], some 80⟩ (by decide)).trans (by decide)

/-- C6 counterexample: a rule-pack detector declaring confidence 60 over a
tree whose own `confidence` is 80 gets a pattern-reported confidence of 80,
not its declared 60 — patterns do carry a confidence of their own. -/
theorem claim_c6_rulepack_confidence_cex :
    (evaluatePattern charEngine "a"
      ((⟨"d1", "SIT", "N", "D", ⟨none, [PatternNode.regex (.str "a") none], some 80⟩,
        some 60, none⟩ : RulePackDetector)).pattern).confidence ≠
      (⟨"d1", "SIT", "N", "D", ⟨none, [PatternNode.regex (.str "a") none], some 80⟩,
        some 60, none⟩ : RulePackDetector).confidence := by
  decide

/-- C7 (amended): `ensureRegex` (the simple-detector path) forces the `g`
flag, and a *string* pattern descriptor always keeps the `g` of the default
`'gi'` flag set, so regex tree nodes over string descriptors count every
occurrence; but the Regex-node and Keyword-entry paths pass their flags
through unmodified, so a structured descriptor or entry whose flags lack
`g` is run non-global (and the `matchAll` throw degrades it to count 0). -/
theorem claim_c7_global_flag :
    (∀ (E : RegexEngine) (p : PatternDescriptor) (out : String × List Char),
      ensureRegex E p = some out → 'g' ∈ out.2) ∧
    (∀ (s : String) (out : String × List Char),
      parseRegexDefinition jsDefaultFlags (.str s) = some out → 'g' ∈ out.2) ∧
    (∀ (E : RegexEngine) (text : String) (s : String) (mm : Option Nat)
        (source : String) (flags : List Char),
      parseRegexDefinition jsDefaultFlags (.str s) = some (source, flags) →
      E.compiles source flags = true →
      (evaluateRegexNode E text (.str s) mm).count =
        (E.matchAll source flags text).length) := by
  refine ⟨ensureRegex_hasG, parse_str_hasG, ?_⟩
  intro E text s mm source flags hp hc
  simp only [evaluateRegexNode, hp]
  rw [runPatternMatches, if_pos ⟨hc, parse_str_hasG s (source, flags) hp⟩]

theorem claim_c7_global_flag_witness :
    ensureRegex charEngine (.str "a") = some ("a", ['g', 'i']) ∧
    ('g' ∈ (['g', 'i'] : List Char)) ∧
    (evaluateRegexNode charEngine "aa" (.str "a") none).count =
      (charEngine.matchAll "a" ['g', 'i'] "aa").length := by
  refine ⟨by decide, ?_, ?_⟩
  · exact ensureRegex_hasG charEngine (.str "a") ("a", ['g', 'i']) (by decide)
  · exact claim_c7_global_flag.2.2 charEngine "aa" "a" none "a" ['g', 'i']
      (by decide) (by decide)

/-- C7 counterexample: a structured-regex descriptor with flags `'i'` is
compiled without `g` (the node then never matches at all), and a keyword
entry's flags are passed through verbatim with nothing forcing `g`. -/
theorem claim_c7_global_flag_cex :
    parseRegexDefinition jsDefaultFlags (.regexObj "a" ['i']) = some ("a", ['i']) ∧
    ('g' ∉ (['i'] : List Char)) ∧
    evaluateRegexNode charEngine "aa" (.regexObj "a" ['i']) none = ⟨false, 0, []⟩ ∧
    (charEngine.matchAll "a" ['i'] "aa").length = 2 ∧
    evaluateKeywordNode charEngine "aa" [⟨"a", []⟩] none = ⟨false, 0, []⟩ := by
  decide

/-- C8 (amended): a simple detector with a valid pattern emits nothing when
its match count is below `minCount`, and otherwise emits a record with
`count` the match count, `confidence` the declared value (or 50 when
absent / non-numeric / zero), `sensitiveTypeId` the trimmed declared value
or empty, and `samples` the first at most 5 matched substrings in text
order — but the record carries no `source` (or `description`) field: the
caller's `"manual"` / `"sample"` tag lives on the detector and is not
copied to the output. -/
theorem claim_c8_simple_detector :
    (∀ (E : RegexEngine) (text : String) (ds : List Detector), text ≠ "" →
      detectSensitiveInfo E text ds = ds.filterMap (simpleOutput E text)) ∧
    (∀ (E : RegexEngine) (text : String) (d : Detector) (source : String)
        (flags : List Char),
      ensureRegex E d.pattern = some (source, flags) →
      (((E.matchAll source flags text).length < jsNumOrNat d.minCount 1 →
        simpleOutput E text d = none) ∧
      (jsNumOrNat d.minCount 1 ≤ (E.matchAll source flags text).length →
        simpleOutput E text d = some {
          id := d.id
          name := d.name
          description := none
          count := (E.matchAll source flags text).length
          confidence := jsNumOrInt d.confidence 50
          sensitiveTypeId :=
            (match d.sensitiveTypeId with | some s => jsTrim s | none => "")
          samples := (E.matchAll source flags text).take 5
          source := none }))) := by
  refine ⟨?_, simpleOutput_spec⟩
  intro E text ds htext
  rw [detectSensitiveInfo, if_neg htext]

theorem claim_c8_simple_detector_witness :
    simpleOutput charEngine "aa"
      ⟨"d", "D", "", .str "a", some 3, some 60, some " S ", some "manual"⟩ = none ∧
    simpleOutput charEngine "aa"
      ⟨"d", "D", "", .str "a", none, some 60, some " S ", some "manual"⟩ =
      some ⟨"d", "D", none, 2, 60, "S", ["a", "a"], none⟩ := by
  constructor
  · exact (claim_c8_simple_detector.2 charEngine "aa"
      ⟨"d", "D", "", .str "a", some 3, some 60, some " S ", some "manual"⟩
      "a" ['g', 'i'] (by decide)).1 (by decide)
  · exact ((claim_c8_simple_detector.2 charEngine "aa"
      ⟨"d", "D", "", .str "a", none, some 60, some " S ", some "manual"⟩
      "a" ['g', 'i'] (by decide)).2 (by decide)).trans (by decide)

/-- C8 counterexample: the emitted record has no `source` property at all —
the detector's own `"manual"` tag is not copied into the output. -/
theorem claim_c8_simple_detector_cex :
    ((detectSensitiveInfo charEngine "aa"
        [⟨"d", "D", "", .str "a", none, none, none, some "manual"⟩]).map
      (fun m => m.source)) = [none] ∧
    (some "manual" ≠ (none : Option String)) := by
  decide

/-- C9: evaluation is total (the embedding is purely functional — nothing
throws): empty text or an empty detector list produce an empty result
list; an unknown or null node evaluates to the non-matching fallback; an
empty/unparseable descriptor, an uncompilable pattern, or a non-global
`matchAll` all degrade to "never matches" with count 0. -/
theorem claim_c9_degradation :
    (∀ (E : RegexEngine) (ds : List Detector), detectSensitiveInfo E "" ds = []) ∧
    (∀ (E : RegexEngine) (text : String), detectSensitiveInfo E text [] = []) ∧
    (∀ (E : RegexEngine) (ds : List RulePackDetector),
      evaluateSitDetectors E "" ds = []) ∧
    (∀ (E : RegexEngine) (text : String), evaluateSitDetectors E text [] = []) ∧
    (∀ (E : RegexEngine) (text : String),
      evaluateNode E text .unknownNode = ⟨false, 0, []⟩) ∧
    (∀ s : String, trimChars s.toList = [] →
      parseRegexDefinition jsDefaultFlags (.str s) = none) ∧
    (∀ (E : RegexEngine) (text : String) (p : PatternDescriptor) (mm : Option Nat),
      parseRegexDefinition jsDefaultFlags p = none →
      evaluateRegexNode E text p mm = ⟨false, 0, []⟩) ∧
    (∀ (E : RegexEngine) (text pattern : String) (flags : List Char),
      ¬(E.compiles pattern flags = true ∧ 'g' ∈ flags) →
      runPatternMatches E text pattern flags = ⟨0, []⟩) ∧
    (∀ (E : RegexEngine) (text : String) (d : Detector),
      ensureRegex E d.pattern = none → simpleOutput E text d = none) := by
  refine ⟨?_, ?_, ?_, ?_, fun E text => rfl, ?_, ?_, ?_, simpleOutput_invalid⟩
  · intro E ds
    rw [detectSensitiveInfo, if_pos rfl]
  · intro E text
    rw [detectSensitiveInfo]
    split
    · rfl
    · rfl
  · intro E ds
    rw [evaluateSitDetectors, if_pos (Or.inl rfl)]
  · intro E text
    rw [evaluateSitDetectors]
    split
    · rfl
    · rfl
  · intro s h0
    simp only [parseRegexDefinition]
    rw [if_pos h0]
  · intro E text p mm h
    simp only [evaluateRegexNode, h]
  · intro E text pattern flags h
    rw [runPatternMatches, if_neg h]

theorem claim_c9_degradation_witness :
    detectSensitiveInfo charEngine ""
      [⟨"d", "D", "", .str "a", none, none, none, none⟩] = [] ∧
    parseRegexDefinition jsDefaultFlags (.str "   ") = none ∧
    evaluateRegexNode charEngine "x" (.str "   ") none = ⟨false, 0, []⟩ ∧
    runPatternMatches charEngine "x" "a" [] = ⟨0, []⟩ ∧
    simpleOutput charEngine "x"
      ⟨"d", "D", "", .regexObj "" [], none, none, none, none⟩ = none ∧
    evaluateNode charEngine "x" .unknownNode = ⟨false, 0, []⟩ := by
  refine ⟨claim_c9_degradation.1 charEngine _, ?_, ?_, ?_, ?_,
    claim_c9_degradation.2.2.2.2.1 charEngine "x"⟩
  · exact claim_c9_degradation.2.2.2.2.2.1 "   " (by decide)
  · exact claim_c9_degradation.2.2.2.2.2.2.1 charEngine "x" (.str "   ") none (by decide)
  · exact claim_c9_degradation.2.2.2.2.2.2.2.1 charEngine "x" "a" [] (by decide)
  · exact claim_c9_degradation.2.2.2.2.2.2.2.2 charEngine "x"
      ⟨"d", "D", "", .regexObj "" [], none, none, none, none⟩ (by decide)

end PurviewClassification
